import Mathlib

/-!
Shallow embedding of `src/server.py` (Notion Research Buddy MCP/HTTP server).

External collaborators are modelled as explicit parameters:
* a page read is an `Except String (List NotionBlock)` value (an error
  string, or the fetched block list),
* the language-model endpoint is an oracle `llm : String → Except String String`
  mapping a prompt to either a response or an exception message,
* the write-back phase is modelled by the ordered list of append payloads the
  code issues on its success path (`writeBackBlocks`); a store failure would
  cut that sequence short and yield the `Error writing` string, which no
  claim below depends on.

Python string primitives used by the source (`str.strip`, `str.replace`,
slicing, `or`-truthiness, `str.startswith`, `str.join`) are embedded over
`List Char` with Python's semantics (left-to-right non-overlapping
replacement, truthiness of `None` and of the empty string, code-point
slicing).
-/

/-- wsChar models membership in the whitespace class stripped by Python
`str.strip()` (space, tab, carriage return, line feed). -/
def wsChar (c : Char) : Bool := c.isWhitespace

/-- pyStrip models Python `str.strip()` on the character list of a string:
drop whitespace from the left, then from the right. -/
def pyStrip (l : List Char) : List Char :=
  ((l.dropWhile wsChar).reverse.dropWhile wsChar).reverse

/-- pyStripStr is `pyStrip` packaged on `String`. -/
def pyStripStr (s : String) : String := ⟨pyStrip s.data⟩

/-- replaceAllFuel is the fuel-indexed worker for `replaceAll`; the fuel is
only there to make the recursion structural, `replaceAll` always supplies
enough of it. -/
def replaceAllFuel (pat repl : List Char) : Nat → List Char → List Char
  | _, [] => []
  | 0, s => s
  | fuel+1, c :: rest =>
    if pat.isPrefixOf (c :: rest) && !pat.isEmpty then
      repl ++ replaceAllFuel pat repl fuel (rest.drop (pat.length - 1))
    else
      c :: replaceAllFuel pat repl fuel rest

/-- replaceAll models Python `str.replace(pat, repl)`: replace every
non-overlapping occurrence of `pat`, scanning left to right and continuing
after each replacement.  (The guard on `pat.isEmpty` only rules out the
empty pattern, which the source never uses.) -/
def replaceAll (pat repl s : List Char) : List Char :=
  replaceAllFuel pat repl s.length s

/-- fence is the literal three-backtick code-fence marker. -/
def fence : List Char := "```".toList

/-- fenceMermaid is the literal mermaid code-fence opener. -/
def fenceMermaid : List Char := "```mermaid".toList

/-- cleanFence models the cleanup expression
`text.replace("```mermaid", "").replace("```", "").strip()` appearing in
`generate_diagram_node` (line 107) and `combine_architecture_diagrams`
(line 311) of the source. -/
def cleanFence (l : List Char) : List Char :=
  pyStrip (replaceAll fence [] (replaceAll fenceMermaid [] l))

/-- cleanFenceStr is `cleanFence` packaged on `String`. -/
def cleanFenceStr (s : String) : String := ⟨cleanFence s.data⟩

/-- pyTruthy models Python truthiness of an `Optional[str]` value: `None`
and the empty string are falsy. -/
def pyTruthy : Option String → Bool
  | none => false
  | some s => s ≠ ""

/-- pyOrStr models the Python expression `a or b` for `a : Optional[str]`
and `b : str`. -/
def pyOrStr (a : Option String) (b : String) : String :=
  match a with
  | none => b
  | some s => if s = "" then b else s

/-- pyTake models the Python slice `s[:n]` (first `n` code points). -/
def pyTake (s : String) (n : Nat) : String := ⟨s.data.take n⟩

/-- pyStartsWith models Python `s.startswith(pre)`. -/
def pyStartsWith (s pre : String) : Bool := pre.data.isPrefixOf s.data

/-- joinSep models Python `sep.join(parts)`. -/
def joinSep (sep : String) : List String → String
  | [] => ""
  | [x] => x
  | x :: rest => x ++ sep ++ joinSep sep rest

/-- TextItem models one rich-text run of a Notion block (its `plain_text`). -/
structure TextItem where
  plain_text : String
  deriving DecidableEq

/-- NotionBlock models the block kinds the extractors look at; every other
block type collapses to `other`. -/
inductive NotionBlock where
  | paragraph (rich_text : List TextItem)
  | heading (level : Nat) (rich_text : List TextItem)
  | bulleted_list_item (rich_text : List TextItem)
  | other
  deriving DecidableEq

/-- AgentState models the `AgentState` pydantic model: the shared state of
the LangGraph pipeline. -/
structure AgentState where
  raw_notes : String
  refined_notes : Option String := none
  mermaid_code : Option String := none
  page_id : String
  deriving DecidableEq

/-- DiagramInput models the `DiagramInput` pydantic model. -/
structure DiagramInput where
  label : String
  mermaid_code : String
  deriving DecidableEq

/-- CombineDiagramsContext models the `CombineDiagramsContext` pydantic
model (`title` defaults to "Unified Architecture"). -/
structure CombineDiagramsContext where
  diagrams : List DiagramInput
  title : String := "Unified Architecture"
  deriving DecidableEq

/-- AppendBlock models the payload of one `notion.blocks.children.append`
call issued by the write-back phase of `process_research_page`. -/
inductive AppendBlock where
  | divider
  | heading_2 (content : String)
  | paragraph (content : String)
  | code (content : String) (language : String)
  deriving DecidableEq

/-- refinePrompt is the instruction template of `rewrite_notes_node`. -/
def refinePrompt (raw_notes : String) : String :=
  "\n    Refine these raw notes into clean, structured Markdown.\n    Use headers, bullets, and bold text. Keep all information.\n    \n    Raw Notes:\n    " ++ raw_notes ++ "\n    "

/-- RefinerOutput is the partial state update returned by the refiner node:
it carries only the `refined_notes` field. -/
structure RefinerOutput where
  refined_notes : String
  deriving DecidableEq

/-- rewrite_notes_node models Node 1: one completion call on the refine
prompt; the raw response text becomes `refined_notes`. -/
def rewrite_notes_node (llm : String → Except String String) (state : AgentState) :
    Except String RefinerOutput :=
  (llm (refinePrompt state.raw_notes)).map fun response => ⟨response⟩

/-- diagramContent is the input text of the diagram node:
`state.refined_notes or state.raw_notes` (Python `or`, line 96). -/
def diagramContent (state : AgentState) : String :=
  pyOrStr state.refined_notes state.raw_notes

/-- diagramPrompt is the instruction template of `generate_diagram_node`. -/
def diagramPrompt (content : String) : String :=
  "\n    Analyze this text and generate a Mermaid.js diagram (graph TD or sequenceDiagram)\n    that represents the system architecture or flow.\n    Return ONLY the Mermaid code, no markdown code blocks.\n    \n    Text:\n    " ++ content ++ "\n    "

/-- ArchitectOutput is the partial state update returned by the diagram
node: it carries only the `mermaid_code` field. -/
structure ArchitectOutput where
  mermaid_code : String
  deriving DecidableEq

/-- generate_diagram_node models Node 2: one completion call on the diagram
prompt, then the code-fence cleanup of the response. -/
def generate_diagram_node (llm : String → Except String String) (state : AgentState) :
    Except String ArchitectOutput :=
  (llm (diagramPrompt (diagramContent state))).map fun response => ⟨cleanFenceStr response⟩

/-- refinerState is the pipeline state after the refiner node's partial
update has been merged (the `refiner` stage of the compiled workflow). -/
def refinerState (llm : String → Except String String) (state : AgentState) :
    Except String AgentState :=
  (rewrite_notes_node llm state).map fun out =>
    { state with refined_notes := some out.refined_notes }

/-- app_invoke models `app.invoke` on the compiled two-node linear workflow
refiner → architect, each node's partial update merged into the state. -/
def app_invoke (llm : String → Except String String) (state : AgentState) :
    Except String AgentState :=
  match refinerState llm state with
  | Except.error e => Except.error e
  | Except.ok s1 =>
    (generate_diagram_node llm s1).map fun out =>
      { s1 with mermaid_code := some out.mermaid_code }

/-- collectParagraphTexts models the extraction loop of
`process_research_page` (lines 142-146): the `plain_text` of every rich-text
run of every paragraph block with non-empty rich text, in order. -/
def collectParagraphTexts : List NotionBlock → List String
  | [] => []
  | NotionBlock.paragraph rich :: rest =>
    (if rich ≠ [] then rich.map (fun t => t.plain_text) else []) ++
      collectParagraphTexts rest
  | _ :: rest => collectParagraphTexts rest

/-- extractRawText models `raw_text = "\n".join(raw_text_parts)` (line 147). -/
def extractRawText (blocks : List NotionBlock) : String :=
  joinSep "\n" (collectParagraphTexts blocks)

/-- emptyPageWarning is the warning returned when the stripped extracted
text is empty (line 153). -/
def emptyPageWarning : String := "⚠️ Page is empty or contains no paragraph text."

/-- writeBackBlocks models the ordered sequence of append payloads issued by
the write-back phase (lines 166-213) on its success path. -/
def writeBackBlocks (result : AgentState) : List AppendBlock :=
  let refined_content : String :=
    if pyTruthy result.refined_notes then pyTake (result.refined_notes.getD "") 2000 else ""
  let mermaid_code : String := result.mermaid_code.getD ""
  [AppendBlock.divider, AppendBlock.heading_2 "✨ Refined Notes"]
    ++ (if refined_content ≠ "" then [AppendBlock.paragraph refined_content] else [])
    ++ [AppendBlock.heading_2 "📊 Architecture Diagram"]
    ++ (if pyTruthy result.mermaid_code then [AppendBlock.code mermaid_code "mermaid"] else [])

/-- process_research_page models the main tool: read (an already-fetched
block list, or a read error), extract, short-circuit on empty text, run the
two-node pipeline, and compose the write-back appends.  The returned pair is
the result string and the list of append payloads issued. -/
def process_research_page (readResult : Except String (List NotionBlock))
    (llm : String → Except String String) (page_id : String) :
    String × List AppendBlock :=
  match readResult with
  | Except.error e => ("Error reading Notion: " ++ e, [])
  | Except.ok blocks =>
    let raw_text := extractRawText blocks
    if pyStripStr raw_text = "" then (emptyPageWarning, [])
    else
      match app_invoke llm (AgentState.mk raw_text none none page_id) with
      | Except.error e => ("Error running agent: " ++ e, [])
      | Except.ok result => ("✅ Page refined and diagram added!", writeBackBlocks result)

/-- noDiagramsWarning is the zero-input warning of
`combine_architecture_diagrams` (line 275). -/
def noDiagramsWarning : String := "⚠️ No diagrams provided to combine."

/-- diagramsText models the labelled fenced enumeration built at lines
281-284. -/
def diagramsText (ds : List DiagramInput) : String :=
  joinSep "\n\n" (ds.map fun d => "### " ++ d.label ++ "\n```mermaid\n" ++ d.mermaid_code ++ "\n```")

/-- combinePrompt is the merge instruction template (lines 286-306). -/
def combinePrompt (ctx : CombineDiagramsContext) : String :=
  "\n    You are an expert at creating Mermaid.js architecture diagrams.\n    \n    I have " ++ toString ctx.diagrams.length ++ " separate architecture diagrams that I need you to combine \n    into ONE unified system architecture diagram titled \"" ++ ctx.title ++ "\".\n    \n    Requirements:\n    1. Create a single cohesive graph TD diagram\n    2. Group each original diagram as a named subgraph\n    3. Identify logical connections BETWEEN the different systems\n    4. Use consistent styling and clear node names\n    5. Add a main title subgraph wrapping everything\n    6. Keep node labels concise but descriptive\n    7. Return ONLY the Mermaid code, no markdown blocks or explanations\n    \n    Here are the diagrams to combine:\n    \n    " ++ diagramsText ctx.diagrams ++ "\n    \n    Generate the combined Mermaid diagram:\n    "

/-- combine_architecture_diagrams models the merge tool: a warning on zero
diagrams, the verbatim code on exactly one, otherwise one completion call
cleaned of fence markers, with any model failure caught and stringified
(lines 272-316). -/
def combine_architecture_diagrams (llm : String → Except String String)
    (ctx : CombineDiagramsContext) : String :=
  match ctx.diagrams with
  | [] => noDiagramsWarning
  | [d] => d.mermaid_code
  | _ :: _ :: _ =>
    match llm (combinePrompt ctx) with
    | Except.ok response => cleanFenceStr response
    | Except.error e => "Error combining diagrams: " ++ e

/-- httpWrap models the shared response pattern of the three HTTP endpoints
(`create_http_app`, lines 343-367): status 400 with the result string as
detail when it starts with "Error", otherwise status 200 carrying the
result. -/
def httpWrap (result : String) : Nat × String :=
  if pyStartsWith result "Error" then (400, result) else (200, result)

/-- tick is the backtick character (U+0060), the character the fence markers
are made of. -/
def tick : Char := '\x60'

/-- replaceAllFuel_congr shows the fuel argument is irrelevant once it
covers the input length. -/
theorem replaceAllFuel_congr (pat repl : List Char) :
    ∀ (f g : Nat) (s : List Char), s.length ≤ f → s.length ≤ g →
      replaceAllFuel pat repl f s = replaceAllFuel pat repl g s := by
  intro f
  induction f with
  | zero =>
    intro g s hf _
    have hs : s = [] := by
      cases s with
      | nil => rfl
      | cons a t => simp at hf
    subst hs
    cases g <;> rfl
  | succ f ih =>
    intro g s hf hg
    cases s with
    | nil => cases g <;> rfl
    | cons c rest =>
      cases g with
      | zero => simp at hg
      | succ g =>
        have hr : rest.length ≤ f := by simp at hf; omega
        have hrg : rest.length ≤ g := by simp at hg; omega
        simp only [replaceAllFuel]
        split
        · have hd : (rest.drop (pat.length - 1)).length ≤ rest.length := by
            rw [List.length_drop]; exact Nat.sub_le _ _
          exact congrArg (fun x => repl ++ x)
            (ih g _ (le_trans hd hr) (le_trans hd hrg))
        · exact congrArg (fun x => c :: x) (ih g rest hr hrg)

/-- replaceAll_nil is the base equation of `replaceAll`. -/
theorem replaceAll_nil (pat repl : List Char) : replaceAll pat repl [] = [] := rfl

/-- replaceAll_cons is the step equation of `replaceAll`. -/
theorem replaceAll_cons (pat repl : List Char) (c : Char) (rest : List Char) :
    replaceAll pat repl (c :: rest) =
      if pat.isPrefixOf (c :: rest) && !pat.isEmpty then
        repl ++ replaceAll pat repl (rest.drop (pat.length - 1))
      else
        c :: replaceAll pat repl rest := by
  show replaceAllFuel pat repl (c :: rest).length (c :: rest) = _
  have hlen : (c :: rest).length = rest.length + 1 := rfl
  rw [hlen]
  simp only [replaceAllFuel]
  split
  · exact congrArg (fun x => repl ++ x)
      (replaceAllFuel_congr pat repl rest.length _ _
        (by rw [List.length_drop]; exact Nat.sub_le _ _) (le_refl _))
  · rfl

/-- isPrefixOf_iff_ex characterises `List.isPrefixOf` by an explicit
append decomposition. -/
theorem isPrefixOf_iff_ex (pat : List Char) :
    ∀ l : List Char, pat.isPrefixOf l = true ↔ ∃ q, l = pat ++ q := by
  induction pat with
  | nil =>
    intro l
    simp [List.isPrefixOf]
  | cons a as ih =>
    intro l
    cases l with
    | nil => simp [List.isPrefixOf]
    | cons b bs =>
      simp only [List.isPrefixOf, Bool.and_eq_true, beq_iff_eq, ih, List.cons_append]
      constructor
      · rintro ⟨rfl, q, rfl⟩
        exact ⟨q, rfl⟩
      · rintro ⟨q, hq⟩
        injection hq with h1 h2
        exact ⟨h1.symm, q, h2⟩

/-- isPrefixOf_append_self shows a list is a prefix of itself extended. -/
theorem isPrefixOf_append_self (pat q : List Char) :
    pat.isPrefixOf (pat ++ q) = true :=
  (isPrefixOf_iff_ex pat (pat ++ q)).mpr ⟨q, rfl⟩

/-- occursIn pat l states that `pat` occurs as a contiguous substring of
`l` (the standard notion behind Python `in` and `str.replace` matching). -/
def occursIn (pat l : List Char) : Prop := ∃ p q, l = p ++ pat ++ q

/-- containsSub is the executable decision procedure for `occursIn`. -/
def containsSub (pat : List Char) : List Char → Bool
  | [] => pat.isEmpty
  | c :: rest => pat.isPrefixOf (c :: rest) || containsSub pat rest

/-- containsSub_iff relates the decision procedure to `occursIn`. -/
theorem containsSub_iff (pat : List Char) :
    ∀ l, containsSub pat l = true ↔ occursIn pat l := by
  intro l
  induction l with
  | nil =>
    simp only [containsSub, List.isEmpty_iff, occursIn]
    constructor
    · rintro rfl
      exact ⟨[], [], rfl⟩
    · rintro ⟨p, q, h⟩
      rw [eq_comm, List.append_eq_nil, List.append_eq_nil] at h
      exact h.1.2
  | cons c rest ih =>
    simp only [containsSub, Bool.or_eq_true, ih, occursIn]
    constructor
    · rintro (hpre | ⟨p, q, rfl⟩)
      · obtain ⟨q, hq⟩ := (isPrefixOf_iff_ex _ _).mp hpre
        exact ⟨[], q, by simpa using hq⟩
      · exact ⟨c :: p, q, rfl⟩
    · rintro ⟨p, q, hl⟩
      cases p with
      | nil =>
        exact Or.inl ((isPrefixOf_iff_ex _ _).mpr ⟨q, by simpa using hl⟩)
      | cons x p =>
        refine Or.inr ⟨p, q, ?_⟩
        injection hl with h1 h2

/-- replaceAll_eq_self shows replacement is the identity when the pattern
does not occur. -/
theorem replaceAll_eq_self (pat repl : List Char) :
    ∀ s, containsSub pat s = false → replaceAll pat repl s = s := by
  intro s
  induction s with
  | nil => intro _; rfl
  | cons c rest ih =>
    intro h
    have h' : pat.isPrefixOf (c :: rest) = false ∧ containsSub pat rest = false := by
      simpa [containsSub] using h
    rw [replaceAll_cons]
    simp [h'.1, ih h'.2]

/-- isPrefixOf_append_cases shows a pattern avoiding the character `b`
that is a prefix of `xs ++ b :: ys` is already a prefix of `xs`. -/
theorem isPrefixOf_append_cases (pat xs ys : List Char) (b : Char)
    (h : pat.isPrefixOf (xs ++ b :: ys) = true) (hb : b ∉ pat) :
    pat.isPrefixOf xs = true := by
  obtain ⟨q, hq⟩ := (isPrefixOf_iff_ex _ _).mp h
  have htake := congrArg (List.take pat.length) hq
  rw [List.take_append_eq_append_take, List.take_left] at htake
  by_cases hlen : pat.length ≤ xs.length
  · have hz : pat.length - xs.length = 0 := Nat.sub_eq_zero_of_le hlen
    rw [hz] at htake
    simp only [List.take_zero, List.append_nil] at htake
    refine (isPrefixOf_iff_ex _ _).mpr ⟨xs.drop pat.length, ?_⟩
    calc xs = xs.take pat.length ++ xs.drop pat.length := (List.take_append_drop _ _).symm
    _ = pat ++ xs.drop pat.length := by rw [htake]
  · exfalso
    have hlt : xs.length < pat.length := Nat.lt_of_not_le hlen
    obtain ⟨m, hm⟩ : ∃ m, pat.length - xs.length = m + 1 :=
      ⟨pat.length - xs.length - 1, by omega⟩
    rw [hm, List.take_of_length_le (by omega), List.take_succ_cons] at htake
    apply hb
    rw [← htake]
    exact List.mem_append.mpr (Or.inr (List.mem_cons_self _ _))

/-- replaceAll_append_boundary_aux is the fuelled form of
`replaceAll_append_boundary`. -/
theorem replaceAll_append_boundary_aux (pat repl : List Char) (b : Char)
    (hb : b ∉ pat) (hpat : pat ≠ []) :
    ∀ (n : Nat) (xs ys : List Char), xs.length ≤ n →
      replaceAll pat repl (xs ++ b :: ys) =
        replaceAll pat repl xs ++ b :: replaceAll pat repl ys := by
  have hnilcase : ∀ ys : List Char,
      replaceAll pat repl (b :: ys) = b :: replaceAll pat repl ys := by
    intro ys
    have hpre : pat.isPrefixOf (b :: ys) = false := by
      cases hp : pat.isPrefixOf (b :: ys) with
      | false => rfl
      | true =>
        exfalso
        obtain ⟨q, hq⟩ := (isPrefixOf_iff_ex _ _).mp hp
        cases pat with
        | nil => exact hpat rfl
        | cons p0 ps =>
          injection hq with h1 h2
          subst h1
          exact hb (List.mem_cons_self _ _)
    rw [replaceAll_cons]
    simp [hpre]
  intro n
  induction n with
  | zero =>
    intro xs ys hxs
    have hx : xs = [] := by
      cases xs with
      | nil => rfl
      | cons a t => simp at hxs
    subst hx
    simpa using hnilcase ys
  | succ n ih =>
    intro xs ys hxs
    cases xs with
    | nil => simpa using hnilcase ys
    | cons c xs' =>
      have hxs' : xs'.length ≤ n := by simp at hxs; omega
      have hE : pat.isEmpty = false := by
        cases pat with
        | nil => exact absurd rfl hpat
        | cons p0 ps => rfl
      by_cases hpre : pat.isPrefixOf (c :: xs') = true
      · obtain ⟨q, hq⟩ := (isPrefixOf_iff_ex _ _).mp hpre
        have hpre2 : pat.isPrefixOf (c :: (xs' ++ b :: ys)) = true := by
          refine (isPrefixOf_iff_ex _ _).mpr ⟨q ++ b :: ys, ?_⟩
          rw [show c :: (xs' ++ b :: ys) = (c :: xs') ++ b :: ys from rfl, hq]
          simp
        have hk : pat.length - 1 ≤ xs'.length := by
          have := congrArg List.length hq
          simp at this
          cases pat with
          | nil => exact absurd rfl hpat
          | cons p0 ps => simp at this ⊢; omega
        rw [show (c :: xs') ++ b :: ys = c :: (xs' ++ b :: ys) from rfl]
        conv_lhs => rw [replaceAll_cons]
        conv_rhs => rw [replaceAll_cons]
        rw [hpre, hpre2, hE]
        simp only [Bool.not_false, Bool.and_true, if_true]
        rw [List.drop_append_eq_append_drop, Nat.sub_eq_zero_of_le hk,
          List.drop_zero]
        rw [ih (xs'.drop (pat.length - 1)) ys
          (le_trans (by rw [List.length_drop]; exact Nat.sub_le _ _) hxs')]
        simp [List.append_assoc]
      · have hpre0 : pat.isPrefixOf (c :: xs') = false := by
          cases hp : pat.isPrefixOf (c :: xs') with
          | false => rfl
          | true => exact absurd hp hpre
        have hpre2 : pat.isPrefixOf (c :: (xs' ++ b :: ys)) = false := by
          cases hp : pat.isPrefixOf (c :: (xs' ++ b :: ys)) with
          | false => rfl
          | true =>
            exfalso
            have := isPrefixOf_append_cases pat (c :: xs') ys b (by simpa using hp) hb
            rw [hpre0] at this
            exact Bool.false_ne_true this
        rw [show (c :: xs') ++ b :: ys = c :: (xs' ++ b :: ys) from rfl]
        conv_lhs => rw [replaceAll_cons]
        conv_rhs => rw [replaceAll_cons]
        rw [hpre0, hpre2]
        simp only [Bool.false_and, if_false]
        rw [ih xs' ys hxs']
        simp

/-- replaceAll_append_boundary shows replacement distributes over a
separator character that cannot appear in the pattern (no occurrence can
straddle the separator). -/
theorem replaceAll_append_boundary (pat repl : List Char) (b : Char)
    (hb : b ∉ pat) (hpat : pat ≠ []) (xs ys : List Char) :
    replaceAll pat repl (xs ++ b :: ys) =
      replaceAll pat repl xs ++ b :: replaceAll pat repl ys :=
  replaceAll_append_boundary_aux pat repl b hb hpat xs.length xs ys (le_refl _)

/-- replaceAll_cons_boundary is the boundary lemma with an empty left part. -/
theorem replaceAll_cons_boundary (pat repl : List Char) (b : Char)
    (hb : b ∉ pat) (hpat : pat ≠ []) (ys : List Char) :
    replaceAll pat repl (b :: ys) = b :: replaceAll pat repl ys := by
  simpa using replaceAll_append_boundary pat repl b hb hpat [] ys

/-- replaceAll_append_self shows a match at the head is taken. -/
theorem replaceAll_append_self (pat repl rest : List Char) (hpat : pat ≠ []) :
    replaceAll pat repl (pat ++ rest) = repl ++ replaceAll pat repl rest := by
  cases pat with
  | nil => exact absurd rfl hpat
  | cons c pat' =>
    rw [show (c :: pat') ++ rest = c :: (pat' ++ rest) from rfl, replaceAll_cons]
    have hpre : (c :: pat').isPrefixOf (c :: (pat' ++ rest)) = true :=
      (isPrefixOf_iff_ex _ _).mpr ⟨rest, by simp⟩
    rw [hpre]
    simp only [List.isEmpty_cons, Bool.not_false, Bool.and_true, if_true]
    have hdrop : (pat' ++ rest).drop ((c :: pat').length - 1) = rest := by
      simp only [List.length_cons, Nat.add_sub_cancel]
      exact List.drop_left pat' rest
    rw [hdrop]

/-- leadRun counts the leading run of the character `c`. -/
def leadRun (c : Char) : List Char → Nat
  | [] => 0
  | a :: rest => if a = c then leadRun c rest + 1 else 0

/-- replicate_isPrefixOf characterises a uniform-run prefix by the length
of the leading run. -/
theorem replicate_isPrefixOf (c : Char) :
    ∀ (k : Nat) (l : List Char),
      ((List.replicate k c).isPrefixOf l = true) ↔ k ≤ leadRun c l := by
  intro k
  induction k with
  | zero =>
    intro l
    simp [List.isPrefixOf]
  | succ k ih =>
    intro l
    cases l with
    | nil =>
      rw [List.replicate_succ]
      constructor
      · intro h
        exact absurd h (by simp [List.isPrefixOf])
      · intro h
        exact absurd h (by simp only [leadRun]; omega)
    | cons a t =>
      rw [List.replicate_succ]
      simp only [List.isPrefixOf, Bool.and_eq_true, beq_iff_eq, ih, leadRun]
      by_cases hac : a = c
      · subst hac
        rw [if_pos rfl]
        constructor
        · rintro ⟨-, h⟩
          omega
        · intro h
          exact ⟨rfl, by omega⟩
      · rw [if_neg hac]
        constructor
        · rintro ⟨h, -⟩
          exact absurd h.symm hac
        · intro h
          exact absurd h (by omega)

/-- replaceTriple_lead is the key invariant behind idempotence of the
fence cleanup: removing every occurrence of a three-character uniform run
leaves no occurrence of that run, and never lengthens the leading run. -/
theorem replaceTriple_lead (c : Char) :
    ∀ (n : Nat) (s : List Char), s.length ≤ n →
      containsSub [c, c, c] (replaceAll [c, c, c] [] s) = false ∧
      leadRun c (replaceAll [c, c, c] [] s) ≤ leadRun c s := by
  intro n
  induction n with
  | zero =>
    intro s hs
    have hx : s = [] := by
      cases s with
      | nil => rfl
      | cons a t => simp at hs
    subst hx
    exact ⟨rfl, le_refl _⟩
  | succ n ih =>
    intro s hs
    cases s with
    | nil => exact ⟨rfl, le_refl _⟩
    | cons a rest =>
      have hrest : rest.length ≤ n := by simp at hs; omega
      rw [replaceAll_cons]
      by_cases hpre : ([c, c, c] : List Char).isPrefixOf (a :: rest) = true
      · have hcond : (([c, c, c] : List Char).isPrefixOf (a :: rest) &&
            !([c, c, c] : List Char).isEmpty) = true := by
          rw [hpre]; rfl
        rw [if_pos hcond]
        obtain ⟨q, hq⟩ := (isPrefixOf_iff_ex _ _).mp hpre
        injection hq with h1 h2
        subst h2
        rw [h1]
        simp only [List.append_eq]
        have hq2 : q.length ≤ n := by
          simp at hrest
          omega
        obtain ⟨ha1, ha2⟩ := ih q hq2
        have hdrop : (([c, c] ++ q) : List Char).drop
            (([c, c, c] : List Char).length - 1) = q := rfl
        rw [hdrop]
        refine ⟨by simpa using ha1, ?_⟩
        rw [List.nil_append]
        have h3 : leadRun c (c :: ([c, c] ++ q)) = leadRun c q + 3 := by
          simp [leadRun]
        rw [h3]
        omega
      · have hpre0 : ([c, c, c] : List Char).isPrefixOf (a :: rest) = false := by
          cases hp : ([c, c, c] : List Char).isPrefixOf (a :: rest) with
          | false => rfl
          | true => exact absurd hp hpre
        have hcond : (([c, c, c] : List Char).isPrefixOf (a :: rest) &&
            !([c, c, c] : List Char).isEmpty) = false := by
          rw [hpre0]; rfl
        rw [hcond, if_neg Bool.false_ne_true]
        obtain ⟨hb1, hb2⟩ := ih rest hrest
        constructor
        · show (([c, c, c] : List Char).isPrefixOf
              (a :: replaceAll [c, c, c] [] rest) ||
            containsSub [c, c, c] (replaceAll [c, c, c] [] rest)) = false
          rw [hb1, Bool.or_false]
          cases hp : ([c, c, c] : List Char).isPrefixOf
              (a :: replaceAll [c, c, c] [] rest) with
          | false => rfl
          | true =>
            exfalso
            have h3 := (replicate_isPrefixOf c 3
                (a :: replaceAll [c, c, c] [] rest)).mp
              (by rw [show List.replicate 3 c = [c, c, c] from rfl]; exact hp)
            have h4 : ¬ (3 ≤ leadRun c (a :: rest)) := by
              intro hx
              have h5 := (replicate_isPrefixOf c 3 (a :: rest)).mpr hx
              rw [show List.replicate 3 c = [c, c, c] from rfl, hpre0] at h5
              exact Bool.false_ne_true h5
            by_cases hac : a = c
            · subst hac
              simp [leadRun] at h3 h4
              omega
            · simp [leadRun, hac] at h3
        · by_cases hac : a = c
          · subst hac
            simp [leadRun]
            omega
          · simp [leadRun, hac]

/-- containsSub_replaceTriple specialises `replaceTriple_lead` to the
occurrence statement. -/
theorem containsSub_replaceTriple (c : Char) (s : List Char) :
    containsSub [c, c, c] (replaceAll [c, c, c] [] s) = false :=
  (replaceTriple_lead c s.length s (le_refl _)).1

/-- dropWhile_eq_nil_of_all drops everything when every element satisfies
the predicate. -/
theorem dropWhile_eq_nil_of_all (p : Char → Bool) :
    ∀ l : List Char, l.all p = true → l.dropWhile p = [] := by
  intro l
  induction l with
  | nil => intro _; rfl
  | cons a t ih =>
    intro h
    simp only [List.all_cons, Bool.and_eq_true] at h
    rw [List.dropWhile_cons, if_pos h.1]
    exact ih h.2

/-- dropWhile_append_ne_nil distributes dropWhile over an append whose left
part is not fully dropped. -/
theorem dropWhile_append_ne_nil (p : Char → Bool) :
    ∀ l m : List Char, l.dropWhile p ≠ [] →
      (l ++ m).dropWhile p = l.dropWhile p ++ m := by
  intro l
  induction l with
  | nil => intro m h; exact absurd rfl h
  | cons a t ih =>
    intro m h
    cases hp : p a with
    | true =>
      rw [List.dropWhile_cons, if_pos hp] at h
      rw [List.cons_append, List.dropWhile_cons, if_pos hp,
        List.dropWhile_cons, if_pos hp]
      exact ih m h
    | false =>
      have hneg : ¬ (p a = true) := by simp [hp]
      rw [List.cons_append, List.dropWhile_cons, if_neg hneg,
        List.dropWhile_cons, if_neg hneg]
      rfl

/-- dropWhile_append_nil crosses an append whose left part is fully
dropped. -/
theorem dropWhile_append_nil (p : Char → Bool) :
    ∀ l m : List Char, l.dropWhile p = [] →
      (l ++ m).dropWhile p = m.dropWhile p := by
  intro l
  induction l with
  | nil => intro m _; rfl
  | cons a t ih =>
    intro m h
    cases hp : p a with
    | true =>
      rw [List.dropWhile_cons, if_pos hp] at h
      rw [List.cons_append, List.dropWhile_cons, if_pos hp]
      exact ih m h
    | false =>
      rw [List.dropWhile_cons, if_neg (by simp [hp])] at h
      simp at h

/-- dropWhile_head_false shows the head surviving a dropWhile fails the
predicate. -/
theorem dropWhile_head_false (p : Char → Bool) :
    ∀ (l : List Char) (a : Char) (t : List Char),
      l.dropWhile p = a :: t → p a = false := by
  intro l
  induction l with
  | nil => intro a t h; exact absurd h (by simp)
  | cons b l' ih =>
    intro a t h
    cases hp : p b with
    | true =>
      rw [List.dropWhile_cons, if_pos hp] at h
      exact ih a t h
    | false =>
      rw [List.dropWhile_cons, if_neg (by simp [hp])] at h
      injection h with h1 h2
      rw [← h1]
      exact hp

/-- dropWhile_ex_append decomposes a list around its dropWhile suffix. -/
theorem dropWhile_ex_append (p : Char → Bool) :
    ∀ l : List Char, ∃ q, l = q ++ l.dropWhile p := by
  intro l
  induction l with
  | nil => exact ⟨[], rfl⟩
  | cons a t ih =>
    cases hp : p a with
    | true =>
      obtain ⟨q, hq⟩ := ih
      refine ⟨a :: q, ?_⟩
      rw [List.dropWhile_cons, if_pos hp, List.cons_append, ← hq]
    | false =>
      refine ⟨[], ?_⟩
      rw [List.dropWhile_cons, if_neg (by simp [hp]), List.nil_append]

/-- pyStrip_head_false shows a nonempty strip result starts with a
non-whitespace character. -/
theorem pyStrip_head_false (l : List Char) (a : Char) (t : List Char)
    (h : pyStrip l = a :: t) : wsChar a = false := by
  obtain ⟨p2, hp2⟩ := dropWhile_ex_append wsChar (l.dropWhile wsChar).reverse
  have hr : (l.dropWhile wsChar).reverse.dropWhile wsChar = (a :: t).reverse := by
    have h2 := congrArg List.reverse h
    simpa [pyStrip] using h2
  rw [hr] at hp2
  have h3 := congrArg List.reverse hp2
  have hy : l.dropWhile wsChar = a :: (t ++ p2.reverse) := by
    simpa [List.reverse_append] using h3
  exact dropWhile_head_false wsChar l a (t ++ p2.reverse) hy

/-- pyStrip_last_false shows a nonempty strip result ends with a
non-whitespace character (stated via the reversed list). -/
theorem pyStrip_last_false (l : List Char) (a : Char) (t : List Char)
    (h : (pyStrip l).reverse = a :: t) : wsChar a = false := by
  apply dropWhile_head_false wsChar (l.dropWhile wsChar).reverse a t
  simpa [pyStrip] using h

/-- pyStrip_idem shows Python strip is idempotent. -/
theorem pyStrip_idem (l : List Char) : pyStrip (pyStrip l) = pyStrip l := by
  cases hrv : pyStrip l with
  | nil => rfl
  | cons e rq =>
    have he : wsChar e = false := pyStrip_head_false l e rq hrv
    show (((e :: rq).dropWhile wsChar).reverse.dropWhile wsChar).reverse = e :: rq
    rw [List.dropWhile_cons, if_neg (by simp [he])]
    cases hrev : (e :: rq).reverse with
    | nil => exact absurd hrev (by simp)
    | cons b u =>
      have hb : wsChar b = false := by
        apply pyStrip_last_false l b u
        rw [hrv]
        exact hrev
      rw [List.dropWhile_cons, if_neg (by simp [hb])]
      rw [← hrev, List.reverse_reverse]

/-- pyStrip_ws_cons drops a leading whitespace character. -/
theorem pyStrip_ws_cons (a : Char) (l : List Char) (ha : wsChar a = true) :
    pyStrip (a :: l) = pyStrip l := by
  show (((a :: l).dropWhile wsChar).reverse.dropWhile wsChar).reverse = _
  rw [List.dropWhile_cons, if_pos ha]
  rfl

/-- pyStrip_ws_last drops a trailing whitespace character. -/
theorem pyStrip_ws_last (b : Char) (l : List Char) (hb : wsChar b = true) :
    pyStrip (l ++ [b]) = pyStrip l := by
  by_cases hl : l.dropWhile wsChar = []
  · show (((l ++ [b]).dropWhile wsChar).reverse.dropWhile wsChar).reverse =
      ((l.dropWhile wsChar).reverse.dropWhile wsChar).reverse
    have hsing : ([b] : List Char).dropWhile wsChar = [] := by
      rw [List.dropWhile_cons, if_pos hb]
      rfl
    rw [dropWhile_append_nil wsChar l [b] hl, hl, hsing]
  · show (((l ++ [b]).dropWhile wsChar).reverse.dropWhile wsChar).reverse = _
    rw [dropWhile_append_ne_nil wsChar l [b] hl, List.reverse_append]
    simp only [List.reverse_cons, List.reverse_nil, List.nil_append,
      List.singleton_append]
    rw [List.dropWhile_cons, if_pos hb]
    rfl

/-- pyStrip_all_ws strips a fully-whitespace list to nothing. -/
theorem pyStrip_all_ws (l : List Char) (h : l.all wsChar = true) :
    pyStrip l = [] := by
  show ((l.dropWhile wsChar).reverse.dropWhile wsChar).reverse = []
  rw [dropWhile_eq_nil_of_all wsChar l h]
  rfl

/-- occursIn_pyStrip lifts an occurrence inside the stripped list to the
original list. -/
theorem occursIn_pyStrip (pat l : List Char) (h : occursIn pat (pyStrip l)) :
    occursIn pat l := by
  obtain ⟨p1, hp1⟩ := dropWhile_ex_append wsChar l
  obtain ⟨p2, hp2⟩ := dropWhile_ex_append wsChar (l.dropWhile wsChar).reverse
  obtain ⟨a, b, hab⟩ := h
  refine ⟨p1 ++ a, b ++ p2.reverse, ?_⟩
  have hy : l.dropWhile wsChar = pyStrip l ++ p2.reverse := by
    have h3 := congrArg List.reverse hp2
    simpa [pyStrip, List.reverse_append] using h3
  rw [hp1, hy, hab]
  simp [List.append_assoc]

/-- containsSub_pyStrip_false transfers absence of an occurrence through
stripping. -/
theorem containsSub_pyStrip_false (pat l : List Char)
    (h : containsSub pat l = false) : containsSub pat (pyStrip l) = false := by
  cases hx : containsSub pat (pyStrip l) with
  | false => rfl
  | true =>
    exfalso
    have h2 := (containsSub_iff pat l).mpr
      (occursIn_pyStrip pat l ((containsSub_iff pat (pyStrip l)).mp hx))
    rw [h] at h2
    exact Bool.false_ne_true h2

/-- containsSub_fenceM_of_fence transfers absence of the bare fence marker
to absence of the mermaid fence opener. -/
theorem containsSub_fenceM_of_fence (l : List Char)
    (h : containsSub fence l = false) : containsSub fenceMermaid l = false := by
  cases hx : containsSub fenceMermaid l with
  | false => rfl
  | true =>
    exfalso
    obtain ⟨p, q, hl⟩ := (containsSub_iff _ _).mp hx
    have hfm : fenceMermaid = fence ++ "mermaid".toList := by decide
    have h2 : occursIn fence l := by
      refine ⟨p, "mermaid".toList ++ q, ?_⟩
      rw [hl, hfm]
      simp [List.append_assoc]
    have h3 := (containsSub_iff fence l).mpr h2
    rw [h] at h3
    exact Bool.false_ne_true h3

/-- fence_triple identifies the fence marker with a uniform
three-character run. -/
theorem fence_triple : fence = [tick, tick, tick] := by decide

/-- cleanFence_no_fence shows the cleanup output never contains the fence
marker. -/
theorem cleanFence_no_fence (l : List Char) :
    containsSub fence (cleanFence l) = false := by
  show containsSub fence
    (pyStrip (replaceAll fence [] (replaceAll fenceMermaid [] l))) = false
  apply containsSub_pyStrip_false
  rw [fence_triple]
  exact containsSub_replaceTriple tick (replaceAll fenceMermaid [] l)

/-- cleanFence_eq_self shows the cleanup is the identity on already-clean,
already-stripped text. -/
theorem cleanFence_eq_self (l : List Char) (hf : containsSub fence l = false)
    (hs : pyStrip l = l) : cleanFence l = l := by
  show pyStrip (replaceAll fence [] (replaceAll fenceMermaid [] l)) = l
  rw [replaceAll_eq_self fenceMermaid [] l (containsSub_fenceM_of_fence l hf),
    replaceAll_eq_self fence [] l hf, hs]

/-- pyStrip_cleanFence shows cleanup output is already stripped. -/
theorem pyStrip_cleanFence (l : List Char) :
    pyStrip (cleanFence l) = cleanFence l :=
  pyStrip_idem (replaceAll fence [] (replaceAll fenceMermaid [] l))

/-- cleanFence_idem shows the cleanup is idempotent. -/
theorem cleanFence_idem (l : List Char) :
    cleanFence (cleanFence l) = cleanFence l :=
  cleanFence_eq_self (cleanFence l) (cleanFence_no_fence l) (pyStrip_cleanFence l)

/-- cleanFence_wrapped computes the cleanup of a fenced mermaid block with
clean, stripped inner content. -/
theorem cleanFence_wrapped (t : List Char) (hf : containsSub fence t = false)
    (hs : pyStrip t = t) :
    cleanFence (fenceMermaid ++ ('\n' :: (t ++ '\n' :: fence))) = t := by
  have hpat1 : fenceMermaid ≠ [] := by decide
  have hfence_ne : fence ≠ [] := by decide
  have hnl1 : ('\n' : Char) ∉ fenceMermaid := by decide
  have hnl2 : ('\n' : Char) ∉ fence := by decide
  show pyStrip (replaceAll fence [] (replaceAll fenceMermaid []
    (fenceMermaid ++ ('\n' :: (t ++ '\n' :: fence))))) = t
  rw [replaceAll_append_self fenceMermaid [] _ hpat1, List.nil_append,
    replaceAll_cons_boundary fenceMermaid [] '\n' hnl1 hpat1,
    replaceAll_append_boundary fenceMermaid [] '\n' hnl1 hpat1 t fence,
    replaceAll_eq_self fenceMermaid [] t (containsSub_fenceM_of_fence t hf)]
  have h1 : replaceAll fenceMermaid [] fence = fence := by decide
  rw [h1, replaceAll_cons_boundary fence [] '\n' hnl2 hfence_ne,
    replaceAll_append_boundary fence [] '\n' hnl2 hfence_ne t fence,
    replaceAll_eq_self fence [] t hf]
  have h2 : replaceAll fence [] fence = ([] : List Char) := by decide
  rw [h2, pyStrip_ws_cons '\n' _ (by decide), pyStrip_ws_last '\n' t (by decide)]
  exact hs

/-- process_unfold_ok is the definitional unfolding of the successful-read
path of `process_research_page`. -/
theorem process_unfold_ok (blocks : List NotionBlock)
    (llm : String → Except String String) (page_id : String) :
    process_research_page (Except.ok blocks) llm page_id =
      if pyStripStr (extractRawText blocks) = "" then (emptyPageWarning, [])
      else
        match app_invoke llm
            (AgentState.mk (extractRawText blocks) none none page_id) with
        | Except.error e => ("Error running agent: " ++ e, [])
        | Except.ok result =>
          ("✅ Page refined and diagram added!", writeBackBlocks result) := rfl

/-- process_of_strip_empty is the empty-content short-circuit of
`process_research_page`: warning string, no appends. -/
theorem process_of_strip_empty (blocks : List NotionBlock)
    (llm : String → Except String String) (page_id : String)
    (h : pyStripStr (extractRawText blocks) = "") :
    process_research_page (Except.ok blocks) llm page_id =
      (emptyPageWarning, []) := by
  rw [process_unfold_ok, if_pos h]

/-- pyTake_ne_empty shows a positive-length slice of a non-empty string is
non-empty. -/
theorem pyTake_ne_empty (s : String) (n : Nat) (hs : s ≠ "") (hn : 0 < n) :
    pyTake s n ≠ "" := by
  cases hsd : s.data with
  | nil =>
    exact absurd (String.ext hsd) hs
  | cons a t =>
    intro h
    have hd := congrArg String.data h
    rw [show (pyTake s n).data = s.data.take n from rfl, hsd] at hd
    cases n with
    | zero => omega
    | succ m => simp [List.take_succ_cons] at hd

/-- joinSep_all_ws shows joining whitespace-only parts with a newline
yields whitespace-only text. -/
theorem joinSep_all_ws :
    ∀ parts : List String, (∀ s ∈ parts, s.data.all wsChar = true) →
      (joinSep "\n" parts).data.all wsChar = true := by
  intro parts
  induction parts with
  | nil => intro _; rfl
  | cons x rest ih =>
    intro h
    cases rest with
    | nil => exact h x (by simp)
    | cons y rest' =>
      show ((x ++ "\n" ++ joinSep "\n" (y :: rest')).data.all wsChar) = true
      have h1 := h x (by simp)
      have h2 : (joinSep "\n" (y :: rest')).data.all wsChar = true :=
        ih (fun s hs => h s (by simp [hs]))
      have hnl : ("\n" : String).data.all wsChar = true := by decide
      rw [show (x ++ "\n" ++ joinSep "\n" (y :: rest')).data
          = x.data ++ ("\n" : String).data ++ (joinSep "\n" (y :: rest')).data
          from rfl]
      rw [List.all_append, List.all_append, h1, h2, hnl]
      rfl

/-- pyStartsWith_true derives a positive startswith check from an explicit
append decomposition of the character data. -/
theorem pyStartsWith_true (s pre : String) (q : List Char)
    (h : s.data = pre.data ++ q) : pyStartsWith s pre = true := by
  show pre.data.isPrefixOf s.data = true
  rw [h]
  exact isPrefixOf_append_self _ _

/-- writeBackBlocks_eq is the closed form of the append sequence: the
optional blocks are governed by Python truthiness of the two fields. -/
theorem writeBackBlocks_eq (result : AgentState) :
    writeBackBlocks result =
      [AppendBlock.divider, AppendBlock.heading_2 "✨ Refined Notes"]
        ++ (if pyTruthy result.refined_notes then
              [AppendBlock.paragraph (pyTake (result.refined_notes.getD "") 2000)]
            else [])
        ++ [AppendBlock.heading_2 "📊 Architecture Diagram"]
        ++ (if pyTruthy result.mermaid_code then
              [AppendBlock.code (result.mermaid_code.getD "") "mermaid"]
            else []) := by
  cases hr : result.refined_notes with
  | none => simp [writeBackBlocks, hr, pyTruthy]
  | some s =>
    by_cases hs : s = ""
    · subst hs
      simp [writeBackBlocks, hr, pyTruthy]
    · have hne : pyTake s 2000 ≠ "" := pyTake_ne_empty s 2000 hs (by omega)
      simp [writeBackBlocks, hr, pyTruthy, hs, hne]

/-- C1: `combine_architecture_diagrams` short-circuits: zero diagrams yield
the "no diagrams" warning, and exactly one diagram is returned verbatim
(byte-for-byte); in both cases no model call is made — the result does not
depend on the model oracle at all. -/
theorem combine_shortcircuit (llm llm' : String → Except String String)
    (ctx : CombineDiagramsContext) :
    (ctx.diagrams = [] →
      combine_architecture_diagrams llm ctx = noDiagramsWarning) ∧
    (∀ d : DiagramInput, ctx.diagrams = [d] →
      combine_architecture_diagrams llm ctx = d.mermaid_code) ∧
    (ctx.diagrams.length ≤ 1 →
      combine_architecture_diagrams llm ctx =
        combine_architecture_diagrams llm' ctx) := by
  refine ⟨?_, ?_, ?_⟩
  · intro h
    simp [combine_architecture_diagrams, h]
  · intro d h
    simp [combine_architecture_diagrams, h]
  · intro h
    cases hds : ctx.diagrams with
    | nil => simp [combine_architecture_diagrams, hds]
    | cons d1 rest1 =>
      cases rest1 with
      | nil => simp [combine_architecture_diagrams, hds]
      | cons d2 rest2 =>
        rw [hds] at h
        simp at h

/-- combine_shortcircuit_witness instantiates the one-diagram short-circuit
on a concrete input (end-to-end scenario 3 of the spec). -/
theorem combine_shortcircuit_witness :
    (⟨[⟨"A", "graph TD; a-->b"⟩], "T"⟩ : CombineDiagramsContext).diagrams
        = [⟨"A", "graph TD; a-->b"⟩] ∧
    combine_architecture_diagrams (fun _ => Except.ok "unused")
        ⟨[⟨"A", "graph TD; a-->b"⟩], "T"⟩ = "graph TD; a-->b" :=
  ⟨rfl, (combine_shortcircuit (fun _ => Except.ok "unused")
      (fun _ => Except.error "x") ⟨[⟨"A", "graph TD; a-->b"⟩], "T"⟩).2.1
      ⟨"A", "graph TD; a-->b"⟩ rfl⟩

/-- C2: for every final pipeline state the write-back issues exactly, in
order: a divider, the refined-notes heading, an optional single paragraph
block (issued only if `refined_notes` is present), the diagram heading,
and an optional code block tagged with the `mermaid` language carrying the
full untruncated diagram text (issued only if `mermaid_code` is present);
no other appends are issued. -/
theorem writeBack_structure (result : AgentState) :
    ∃ P C : List AppendBlock,
      writeBackBlocks result =
        [AppendBlock.divider, AppendBlock.heading_2 "✨ Refined Notes"]
          ++ P ++ [AppendBlock.heading_2 "📊 Architecture Diagram"] ++ C ∧
      (∀ b ∈ P, ∃ s : String, b = AppendBlock.paragraph s) ∧
      P.length ≤ 1 ∧
      (P ≠ [] → result.refined_notes ≠ none) ∧
      (C = [] ∨ ∃ m : String, result.mermaid_code = some m ∧
        C = [AppendBlock.code m "mermaid"]) := by
  refine ⟨(if pyTruthy result.refined_notes then
        [AppendBlock.paragraph (pyTake (result.refined_notes.getD "") 2000)]
      else []),
    (if pyTruthy result.mermaid_code then
        [AppendBlock.code (result.mermaid_code.getD "") "mermaid"]
      else []),
    writeBackBlocks_eq result, ?_, ?_, ?_, ?_⟩
  · intro b hb
    by_cases h : pyTruthy result.refined_notes = true
    · rw [if_pos h] at hb
      simp at hb
      exact ⟨_, hb⟩
    · rw [if_neg h] at hb
      simp at hb
  · by_cases h : pyTruthy result.refined_notes = true
    · rw [if_pos h]
      simp
    · rw [if_neg h]
      simp
  · intro hP
    cases hr : result.refined_notes with
    | none =>
      exfalso
      apply hP
      rw [hr]
      rfl
    | some s => simp
  · by_cases h : pyTruthy result.mermaid_code = true
    · cases hm : result.mermaid_code with
      | none =>
        rw [hm] at h
        simp [pyTruthy] at h
      | some m =>
        right
        refine ⟨m, rfl, ?_⟩
        rw [if_pos (show pyTruthy (some m) = true from hm ▸ h)]
        rfl
    · left
      rw [if_neg h]

/-- writeBack_structure_witness instantiates the append-sequence shape on a
concrete final state with both fields present. -/
theorem writeBack_structure_witness :
    ∃ P C : List AppendBlock,
      writeBackBlocks (AgentState.mk "raw" (some "notes") (some "graph TD") "p") =
        [AppendBlock.divider, AppendBlock.heading_2 "✨ Refined Notes"]
          ++ P ++ [AppendBlock.heading_2 "📊 Architecture Diagram"] ++ C ∧
      (∀ b ∈ P, ∃ s : String, b = AppendBlock.paragraph s) ∧
      P.length ≤ 1 ∧
      (P ≠ [] →
        (AgentState.mk "raw" (some "notes") (some "graph TD") "p").refined_notes
          ≠ none) ∧
      (C = [] ∨ ∃ m : String,
        (AgentState.mk "raw" (some "notes") (some "graph TD") "p").mermaid_code
          = some m ∧ C = [AppendBlock.code m "mermaid"]) :=
  writeBack_structure (AgentState.mk "raw" (some "notes") (some "graph TD") "p")

/-- C3: the paragraph block written back carries exactly the first 2000
code points of `refined_notes`; when 0 < L ≤ 2000 that is the whole string
unchanged. -/
theorem writeBack_truncation (result : AgentState) (s : String)
    (hr : result.refined_notes = some s) (hL : 0 < s.length) :
    (2000 < s.length →
      AppendBlock.paragraph ⟨s.data.take 2000⟩ ∈ writeBackBlocks result) ∧
    (s.length ≤ 2000 →
      AppendBlock.paragraph s ∈ writeBackBlocks result ∧ pyTake s 2000 = s) := by
  have hs : s ≠ "" := by
    intro h
    subst h
    simp [String.length] at hL
  have hmem : AppendBlock.paragraph (pyTake s 2000) ∈ writeBackBlocks result := by
    rw [writeBackBlocks_eq result]
    have ht : pyTruthy result.refined_notes = true := by
      simp [hr, pyTruthy, hs]
    rw [if_pos ht, hr]
    simp
  constructor
  · intro _
    exact hmem
  · intro h2000
    have htake : pyTake s 2000 = s := by
      show (⟨s.data.take 2000⟩ : String) = s
      have h1 : s.data.take 2000 = s.data := List.take_of_length_le h2000
      rw [h1]
    exact ⟨htake ▸ hmem, htake⟩

/-- writeBack_truncation_witness instantiates the truncation claim on a
short (length 3) refined-notes value. -/
theorem writeBack_truncation_witness :
    (AgentState.mk "raw" (some "abc") none "p").refined_notes = some "abc" ∧
    0 < ("abc" : String).length ∧
    (("abc" : String).length ≤ 2000 →
      AppendBlock.paragraph "abc" ∈
        writeBackBlocks (AgentState.mk "raw" (some "abc") none "p") ∧
      pyTake "abc" 2000 = "abc") :=
  ⟨rfl, by decide,
    (writeBack_truncation (AgentState.mk "raw" (some "abc") none "p") "abc"
      rfl (by decide)).2⟩

/-- C4 counterexample: a state whose `refined_notes` is present but empty.
The claim says the diagram step then consumes `refined_notes` (the empty
string), but the code's Python `or` falls back to `raw_notes` ("X"), so
the step consumes "X" instead. -/
theorem diagram_input_claim_cex :
    (AgentState.mk "X" (some "") none "p").refined_notes ≠ none ∧
    diagramContent (AgentState.mk "X" (some "") none "p") = "X" ∧
    ("X" : String) ≠ "" :=
  ⟨by decide, by decide, by decide⟩

/-- C4 amended: the diagram step's input text is `refined_notes` whenever
it is present and non-empty, and `raw_notes` when it is absent or empty
(Python `or` truthiness); in particular for state {raw_notes: "X",
refined_notes: "Y"} the step consumes "Y". -/
theorem diagram_input_selection (llm : String → Except String String)
    (st : AgentState) :
    (∀ s : String, st.refined_notes = some s → s ≠ "" →
      diagramContent st = s ∧
      generate_diagram_node llm st =
        (llm (diagramPrompt s)).map fun r => ⟨cleanFenceStr r⟩) ∧
    (st.refined_notes = none → diagramContent st = st.raw_notes) ∧
    (st.refined_notes = some "" → diagramContent st = st.raw_notes) := by
  refine ⟨?_, ?_, ?_⟩
  · intro s hsome hne
    have hc : diagramContent st = s := by
      simp [diagramContent, pyOrStr, hsome, hne]
    refine ⟨hc, ?_⟩
    unfold generate_diagram_node
    rw [hc]
  · intro h
    simp [diagramContent, pyOrStr, h]
  · intro h
    simp [diagramContent, pyOrStr, h]

/-- diagram_input_selection_witness instantiates the amended claim on the
spec's own example state {raw_notes: "X", refined_notes: "Y"}. -/
theorem diagram_input_selection_witness :
    (AgentState.mk "X" (some "Y") none "p").refined_notes = some "Y" ∧
    ("Y" : String) ≠ "" ∧
    diagramContent (AgentState.mk "X" (some "Y") none "p") = "Y" :=
  ⟨rfl, by decide,
    ((diagram_input_selection (fun _ => Except.ok "r")
      (AgentState.mk "X" (some "Y") none "p")).1 "Y" rfl (by decide)).1⟩

/-- C5: when extraction yields the empty string (zero blocks, or no
recognised block types), `process_research_page` returns the empty-content
warning — not an error — issues zero appends, and the pipeline never
starts: the outcome is independent of the model oracle. -/
theorem process_empty_content (blocks : List NotionBlock)
    (llm llm' : String → Except String String) (page_id : String)
    (h : extractRawText blocks = "") :
    process_research_page (Except.ok blocks) llm page_id =
      (emptyPageWarning, []) ∧
    process_research_page (Except.ok blocks) llm page_id =
      process_research_page (Except.ok blocks) llm' page_id := by
  have hs : pyStripStr (extractRawText blocks) = "" := by
    rw [h]
    rfl
  exact ⟨process_of_strip_empty blocks llm page_id hs,
    (process_of_strip_empty blocks llm page_id hs).trans
      (process_of_strip_empty blocks llm' page_id hs).symm⟩

/-- process_empty_content_witness instantiates the empty-content claim on
a page with zero blocks (end-to-end scenario 2 of the spec). -/
theorem process_empty_content_witness :
    extractRawText [] = "" ∧
    process_research_page (Except.ok []) (fun _ => Except.ok "r") "p"
      = (emptyPageWarning, []) :=
  ⟨rfl, (process_empty_content [] (fun _ => Except.ok "r")
      (fun _ => Except.error "e") "p" rfl).1⟩

/-- C6: the HTTP surface returns status 400 with the result string as
detail exactly when the underlying operation's result begins with "Error";
every other result, including the two warning strings, is returned with
status 200. -/
theorem httpWrap_spec (result : String) :
    ((httpWrap result).1 = 400 ↔ pyStartsWith result "Error" = true) ∧
    ((httpWrap result).1 = 200 ↔ pyStartsWith result "Error" = false) ∧
    (httpWrap result).2 = result ∧
    (httpWrap emptyPageWarning).1 = 200 ∧
    (httpWrap noDiagramsWarning).1 = 200 := by
  refine ⟨?_, ?_, ?_, by decide, by decide⟩
  · constructor
    · intro h400
      cases hx : pyStartsWith result "Error" with
      | true => rfl
      | false =>
        exfalso
        unfold httpWrap at h400
        rw [if_neg (by simp [hx])] at h400
        simp at h400
    · intro h
      unfold httpWrap
      rw [if_pos h]
  · constructor
    · intro h200
      cases hx : pyStartsWith result "Error" with
      | false => rfl
      | true =>
        exfalso
        unfold httpWrap at h200
        rw [if_pos hx] at h200
        simp at h200
    · intro h
      unfold httpWrap
      rw [if_neg (by simp [h])]
  · unfold httpWrap
    by_cases h : pyStartsWith result "Error" = true
    · rw [if_pos h]
    · rw [if_neg h]

/-- C8: within one invocation `refined_notes` and `mermaid_code` are
absent until their step completes, are never cleared or overwritten to
absent afterwards, and each step's merge changes only the field it
produces: the refiner merge touches only `refined_notes`, the architect
merge only `mermaid_code`. -/
theorem pipeline_state_monotone (llm : String → Except String String)
    (st s1 s2 : AgentState)
    (_h0r : st.refined_notes = none) (h0m : st.mermaid_code = none)
    (hs1 : refinerState llm st = Except.ok s1)
    (hs2 : app_invoke llm st = Except.ok s2) :
    (∃ r : String, s1.refined_notes = some r) ∧
    s1.mermaid_code = none ∧
    s1.raw_notes = st.raw_notes ∧ s1.page_id = st.page_id ∧
    s2.refined_notes = s1.refined_notes ∧
    (∃ m : String, s2.mermaid_code = some m) ∧
    s2.raw_notes = s1.raw_notes ∧ s2.page_id = s1.page_id := by
  cases hllm : llm (refinePrompt st.raw_notes) with
  | error e =>
    exfalso
    unfold refinerState rewrite_notes_node at hs1
    rw [hllm] at hs1
    exact absurd hs1 (by simp [Except.map])
  | ok resp =>
    have hs1' : s1 = { st with refined_notes := some resp } := by
      unfold refinerState rewrite_notes_node at hs1
      rw [hllm] at hs1
      simp only [Except.map, Except.ok.injEq] at hs1
      exact hs1.symm
    unfold app_invoke at hs2
    rw [hs1] at hs2
    simp only [] at hs2
    cases hllm2 : llm (diagramPrompt (diagramContent s1)) with
    | error e2 =>
      exfalso
      unfold generate_diagram_node at hs2
      rw [hllm2] at hs2
      exact absurd hs2 (by simp [Except.map])
    | ok resp2 =>
      have hs2' : s2 = { s1 with mermaid_code := some (cleanFenceStr resp2) } := by
        unfold generate_diagram_node at hs2
        rw [hllm2] at hs2
        simp only [Except.map, Except.ok.injEq] at hs2
        exact hs2.symm
      subst hs2'
      subst hs1'
      exact ⟨⟨resp, rfl⟩, h0m, rfl, rfl, rfl, ⟨cleanFenceStr resp2, rfl⟩, rfl, rfl⟩

/-- pipeline_state_monotone_witness instantiates the state invariant on a
concrete run with a constant model oracle. -/
theorem pipeline_state_monotone_witness :
    (AgentState.mk "raw" none none "p").refined_notes = none ∧
    refinerState (fun _ => Except.ok "out") (AgentState.mk "raw" none none "p")
      = Except.ok (AgentState.mk "raw" (some "out") none "p") ∧
    app_invoke (fun _ => Except.ok "out") (AgentState.mk "raw" none none "p")
      = Except.ok (AgentState.mk "raw" (some "out") (some "out") "p") ∧
    ((∃ r : String,
        (AgentState.mk "raw" (some "out") none "p").refined_notes = some r) ∧
      (AgentState.mk "raw" (some "out") none "p").mermaid_code = none ∧
      (AgentState.mk "raw" (some "out") none "p").raw_notes
        = (AgentState.mk "raw" none none "p").raw_notes ∧
      (AgentState.mk "raw" (some "out") none "p").page_id
        = (AgentState.mk "raw" none none "p").page_id ∧
      (AgentState.mk "raw" (some "out") (some "out") "p").refined_notes
        = (AgentState.mk "raw" (some "out") none "p").refined_notes ∧
      (∃ m : String,
        (AgentState.mk "raw" (some "out") (some "out") "p").mermaid_code
          = some m) ∧
      (AgentState.mk "raw" (some "out") (some "out") "p").raw_notes
        = (AgentState.mk "raw" (some "out") none "p").raw_notes ∧
      (AgentState.mk "raw" (some "out") (some "out") "p").page_id
        = (AgentState.mk "raw" (some "out") none "p").page_id) :=
  ⟨rfl, rfl, rfl,
    pipeline_state_monotone (fun _ => Except.ok "out")
      (AgentState.mk "raw" none none "p")
      (AgentState.mk "raw" (some "out") none "p")
      (AgentState.mk "raw" (some "out") (some "out") "p")
      rfl rfl rfl rfl⟩

/-- C9: whitespace-only extracted text is treated exactly like empty text:
the emptiness check is on the stripped string, so the warning is returned,
zero appends are issued, and the pipeline never starts. -/
theorem process_whitespace_only (blocks : List NotionBlock)
    (llm llm' : String → Except String String) (page_id : String)
    (h : ∀ s ∈ collectParagraphTexts blocks, s.data.all wsChar = true) :
    process_research_page (Except.ok blocks) llm page_id =
      (emptyPageWarning, []) ∧
    process_research_page (Except.ok blocks) llm page_id =
      process_research_page (Except.ok blocks) llm' page_id := by
  have hall : (extractRawText blocks).data.all wsChar = true :=
    joinSep_all_ws (collectParagraphTexts blocks) h
  have hs : pyStripStr (extractRawText blocks) = "" := by
    show (⟨pyStrip (extractRawText blocks).data⟩ : String) = ""
    rw [pyStrip_all_ws _ hall]
  exact ⟨process_of_strip_empty blocks llm page_id hs,
    (process_of_strip_empty blocks llm page_id hs).trans
      (process_of_strip_empty blocks llm' page_id hs).symm⟩

/-- process_whitespace_only_witness instantiates the whitespace-only claim
on a page holding a single space, a case distinct from the empty page. -/
theorem process_whitespace_only_witness :
    extractRawText [NotionBlock.paragraph [⟨" "⟩]] = " " ∧
    (" " : String) ≠ "" ∧
    process_research_page (Except.ok [NotionBlock.paragraph [⟨" "⟩]])
      (fun _ => Except.ok "r") "p" = (emptyPageWarning, []) :=
  ⟨rfl, by decide,
    (process_whitespace_only [NotionBlock.paragraph [⟨" "⟩]]
      (fun _ => Except.ok "r") (fun _ => Except.error "e") "p"
      (by decide)).1⟩

/-- C10: with two or more diagrams a model-invocation failure never
escapes `combine_architecture_diagrams`: it is caught and rendered as a
string beginning with "Error combining diagrams", which the HTTP surface
then maps to a 400 response. -/
theorem combine_model_failure (llm : String → Except String String)
    (ctx : CombineDiagramsContext) (d1 d2 : DiagramInput)
    (rest : List DiagramInput) (e : String)
    (hds : ctx.diagrams = d1 :: d2 :: rest)
    (hfail : llm (combinePrompt ctx) = Except.error e) :
    combine_architecture_diagrams llm ctx = "Error combining diagrams: " ++ e ∧
    pyStartsWith (combine_architecture_diagrams llm ctx)
      "Error combining diagrams" = true ∧
    (httpWrap (combine_architecture_diagrams llm ctx)).1 = 400 := by
  have hres : combine_architecture_diagrams llm ctx =
      "Error combining diagrams: " ++ e := by
    unfold combine_architecture_diagrams
    rw [hds, hfail]
  refine ⟨hres, ?_, ?_⟩
  · rw [hres]
    refine pyStartsWith_true _ _ ((": " : String).data ++ e.data) ?_
    show ("Error combining diagrams: " : String).data ++ e.data
        = ("Error combining diagrams" : String).data
          ++ ((": " : String).data ++ e.data)
    rw [show ("Error combining diagrams: " : String).data
        = ("Error combining diagrams" : String).data ++ (": " : String).data
        from by decide, List.append_assoc]
  · rw [hres]
    have hE : pyStartsWith ("Error combining diagrams: " ++ e) "Error" = true := by
      refine pyStartsWith_true _ _
        ((" combining diagrams: " : String).data ++ e.data) ?_
      show ("Error combining diagrams: " : String).data ++ e.data
          = ("Error" : String).data
            ++ ((" combining diagrams: " : String).data ++ e.data)
      rw [show ("Error combining diagrams: " : String).data
          = ("Error" : String).data ++ (" combining diagrams: " : String).data
          from by decide, List.append_assoc]
    unfold httpWrap
    rw [if_pos hE]

/-- combine_model_failure_witness instantiates the caught-failure claim on
a concrete two-diagram input and an always-failing oracle. -/
theorem combine_model_failure_witness :
    (⟨[⟨"A", "a"⟩, ⟨"B", "b"⟩], "T"⟩ : CombineDiagramsContext).diagrams
      = ⟨"A", "a"⟩ :: ⟨"B", "b"⟩ :: [] ∧
    ((fun _ => Except.error "boom") :
        String → Except String String)
      (combinePrompt ⟨[⟨"A", "a"⟩, ⟨"B", "b"⟩], "T"⟩) = Except.error "boom" ∧
    combine_architecture_diagrams (fun _ => Except.error "boom")
      ⟨[⟨"A", "a"⟩, ⟨"B", "b"⟩], "T"⟩ = "Error combining diagrams: " ++ "boom" :=
  ⟨rfl, rfl,
    (combine_model_failure (fun _ => Except.error "boom")
      ⟨[⟨"A", "a"⟩, ⟨"B", "b"⟩], "T"⟩ ⟨"A", "a"⟩ ⟨"B", "b"⟩ [] "boom"
      rfl rfl).1⟩

/-- C7 counterexample: the string " a " contains no fence marker, yet the
cleanup does not return it unchanged — the trailing `.strip()` in the
cleanup expression removes its surrounding whitespace — refuting the
claim's "unchanged on marker-free strings" clause as stated. -/
theorem cleanFence_claim_cex :
    containsSub fence (" a " : String).data = false ∧
    cleanFenceStr " a " ≠ " a " ∧
    cleanFenceStr " a " = "a" :=
  ⟨by decide, by decide, by decide⟩

/-- C7 amended: the cleanup is idempotent; a string containing no fence
marker that carries no leading or trailing whitespace is returned
unchanged; and a fenced block of the form `"```mermaid\n" ++ inner ++
"\n```"` whose inner content contains no fence marker and carries no
leading or trailing whitespace cleans to exactly the inner content. -/
theorem cleanFence_amended (s : String) :
    cleanFenceStr (cleanFenceStr s) = cleanFenceStr s ∧
    (containsSub fence s.data = false → pyStripStr s = s →
      cleanFenceStr s = s) ∧
    (∀ t : String, containsSub fence t.data = false → pyStripStr t = t →
      s = "```mermaid\n" ++ t ++ "\n```" → cleanFenceStr s = t) := by
  refine ⟨?_, ?_, ?_⟩
  · show (⟨cleanFence (cleanFenceStr s).data⟩ : String) = ⟨cleanFence s.data⟩
    rw [show (cleanFenceStr s).data = cleanFence s.data from rfl,
      cleanFence_idem s.data]
  · intro hf hs
    show (⟨cleanFence s.data⟩ : String) = s
    rw [cleanFence_eq_self s.data hf (congrArg String.data hs)]
  · intro t hf hs hse
    subst hse
    show (⟨cleanFence ("```mermaid\n" ++ t ++ "\n```").data⟩ : String) = t
    have hdata : ("```mermaid\n" ++ t ++ "\n```").data
        = fenceMermaid ++ ('\n' :: (t.data ++ '\n' :: fence)) := by
      show (("```mermaid\n" : String).data ++ t.data)
            ++ ("\n```" : String).data
          = fenceMermaid ++ ('\n' :: (t.data ++ '\n' :: fence))
      rw [show ("```mermaid\n" : String).data = fenceMermaid ++ ['\n']
          from by decide,
        show ("\n```" : String).data = '\n' :: fence from by decide]
      simp [List.append_assoc]
    rw [hdata, cleanFence_wrapped t.data hf (congrArg String.data hs)]

/-- cleanFence_amended_witness instantiates the amended cleanup claim on a
concrete fenced block with inner content "graph TD". -/
theorem cleanFence_amended_witness :
    containsSub fence ("graph TD" : String).data = false ∧
    pyStripStr "graph TD" = "graph TD" ∧
    ("```mermaid\ngraph TD\n```" : String)
      = "```mermaid\n" ++ "graph TD" ++ "\n```" ∧
    cleanFenceStr "```mermaid\ngraph TD\n```" = "graph TD" :=
  ⟨by decide, by decide, by decide,
    (cleanFence_amended "```mermaid\ngraph TD\n```").2.2 "graph TD"
      (by decide) (by decide) (by decide)⟩
